import Mathlib

/-!
Shallow embedding of the OctoBar client-side notification reconciliation and
filtering engine.

Sources embedded here:
* `src/renderer/App.tsx` — `loadNotifications` (reconciliation / alert
  classification and state update), `transformGitHubNotifications`
  (suppression filter, URL building, grouping, in-group sorting),
  `handleMarkAsRead`, `handleMarkAllAsRead` (filtered branch), `handleRefresh`.
* `src/renderer/components/QuickActions.tsx` — `GitHubService.getNotifications`
  (pagination loop and client-side filter hand-off) and
  `GitHubService.filterNotifications`.

Modelling conventions:
* GitHub identifiers reach the filtering/reconciliation code as strings
  (the TS code calls `.toString()` on every id before use); we embed the
  already-stringified ids.
* ISO-8601 timestamps are compared in the TS code via
  `new Date(s).getTime()`; we embed the resulting epoch milliseconds as `Nat`.
* JavaScript `Set` (insertion-ordered, deduplicating) is embedded as a
  duplicate-free `List String` built with `jsSetInsert`.
* `Array.prototype.sort` with comparator `(a, b) => B(b) - B(a)` is a stable
  descending sort; it is embedded as Mathlib's stable `insertionSort` with
  the relation `B b ≤ B a`, which yields the same list as any stable sort
  for this total preorder.
-/

/-- Owner reference of a repository; `repo.owner?.id?.toString()` and
`repo.owner?.login` may each be absent, hence the `Option` fields. -/
structure RawOwner where
  id : Option String
  login : Option String
  deriving Repr, DecidableEq

/-- Repository reference carried by a raw GitHub notification. -/
structure RawRepo where
  id : String
  full_name : String
  owner : Option RawOwner
  deriving Repr, DecidableEq

/-- Subject of a raw GitHub notification (`notification.subject`). The TS
code reads `subject.title`, `subject.type` and `subject.url` directly, so the
subject is embedded as always present. -/
structure RawSubject where
  title : String
  type : String
  url : String
  deriving Repr, DecidableEq

/-- Raw notification record as returned by the GitHub notifications feed,
restricted to the fields the engine reads. `repository` is optional because
`filterNotifications` guards on `!repo`. `read_at` is `none` for unread
threads. `thread_id` is the optional field consulted by the filtered
mark-as-read loop. -/
structure RawNotification where
  id : String
  repository : Option RawRepo
  subject : RawSubject
  reason : String
  read_at : Option Nat
  updated_at : Nat
  thread_id : Option String
  deriving Repr, DecidableEq

/-- Display-ready notification item built by `transformGitHubNotifications`. -/
structure AppNotification where
  id : String
  title : String
  type : String
  repository : String
  updatedAt : Nat
  unread : Bool
  url : String
  reason : String
  deriving Repr, DecidableEq

/-- One display group: a repository full name and its notification items. -/
structure NotificationGroup where
  repository : String
  notifications : List AppNotification
  deriving Repr, DecidableEq

/-- Insertion into a JavaScript `Set` embedded as a duplicate-free list:
`Set.prototype.add` keeps the first occurrence and appends unseen values. -/
def jsSetInsert (s : List String) (x : String) : List String :=
  if s.contains x then s else s ++ [x]

/-- Embedding of `new Set(xs)`: deduplicate, keeping first-occurrence order. -/
def jsSetOfList (xs : List String) : List String :=
  xs.foldl jsSetInsert []

/-- Charwise embedding of JavaScript `String.prototype.trim` (used by the
repository-id comparison in `filterNotifications`): strip whitespace from
both ends. Defined on the character list so that the kernel can evaluate
it on concrete inputs. -/
def jsTrim (s : String) : String :=
  String.mk (((s.data.dropWhile Char.isWhitespace).reverse.dropWhile Char.isWhitespace).reverse)

/-- Charwise embedding of JavaScript `url.split('/')` (used by the URL
builder): split a character list at every `/`. Like its JS counterpart it
always returns at least one (possibly empty) segment. -/
def splitOnSlash : List Char → List (List Char)
  | [] => [[]]
  | c :: rest =>
    match splitOnSlash rest with
    | [] => [[c]]
    | h :: t => if c = '/' then [] :: h :: t else (c :: h) :: t

/-- The final path segment `urlParts[urlParts.length - 1]` of a URL. -/
def lastPathSegment (s : String) : String :=
  String.mk ((splitOnSlash s.data).getLastD [])

/-- Embedding of `buildNotificationUrl` from `transformGitHubNotifications`:
takes the last path segment of `subject.url` and dispatches on the subject
type; unknown types fall back to the bare repository URL. A raw record with
no repository would throw in the TS code (`notification.repository.full_name`);
it is embedded with the empty repository name. -/
def buildNotificationUrl (n : RawNotification) : String :=
  let repoName := (n.repository.map (fun r => r.full_name)).getD ""
  let number := lastPathSegment n.subject.url
  match n.subject.type with
  | "Issue" => "https://github.com/" ++ repoName ++ "/issues/" ++ number
  | "PullRequest" => "https://github.com/" ++ repoName ++ "/pull/" ++ number
  | "Commit" => "https://github.com/" ++ repoName ++ "/commit/" ++ number
  | "Release" => "https://github.com/" ++ repoName ++ "/releases/tag/" ++ number
  | "Discussion" => "https://github.com/" ++ repoName ++ "/discussions/" ++ number
  | _ => "https://github.com/" ++ repoName

/-- Display item pushed into a group by `transformGitHubNotifications`. -/
def toDisplayItem (n : RawNotification) : AppNotification :=
  { id := n.id
    title := n.subject.title
    type := n.subject.type
    repository := (n.repository.map (fun r => r.full_name)).getD ""
    updatedAt := n.updated_at
    unread := n.read_at.isNone
    url := buildNotificationUrl n
    reason := n.reason }

/-- Embedding of one step of building the `grouped` object: JavaScript object
keys keep insertion order (the keys here contain `/`, so they are not
integer-like), and `grouped[repoName].push(item)` appends. -/
def insertIntoGroups (gs : List (String × List AppNotification)) (key : String)
    (item : AppNotification) : List (String × List AppNotification) :=
  match gs with
  | [] => [(key, [item])]
  | (k, items) :: rest =>
    if k = key then (k, items ++ [item]) :: rest
    else (k, items) :: insertIntoGroups rest key item

/-- Embedding of the `filteredNotifications.forEach` loop that populates the
`grouped` object keyed by `repository.full_name`. -/
def groupByRepo (items : List AppNotification) : List (String × List AppNotification) :=
  items.foldl (fun gs it => insertIntoGroups gs it.repository it) []

/-- Ordering used by the in-group sort `(a, b) => new Date(b.updatedAt) -
new Date(a.updatedAt)`: descending by `updatedAt`. -/
def updatedDescRel (a b : AppNotification) : Prop :=
  b.updatedAt ≤ a.updatedAt

instance : DecidableRel updatedDescRel :=
  fun a b => Nat.decLe b.updatedAt a.updatedAt

instance : IsTotal AppNotification updatedDescRel :=
  ⟨fun a b => Nat.le_total b.updatedAt a.updatedAt⟩

instance : IsTrans AppNotification updatedDescRel :=
  ⟨fun _ _ _ h1 h2 => Nat.le_trans h2 h1⟩

/-- Stable descending sort of a group's items (see module conventions). -/
def sortByUpdatedDesc (items : List AppNotification) : List AppNotification :=
  items.insertionSort updatedDescRel

/-- Embedding of `transformGitHubNotifications`: drop records whose id is in
the local mark-as-read suppression set, build display items, group by
repository full name in first-occurrence order, and sort each group by
`updatedAt` descending. -/
def transformGitHubNotifications (markedAsReadIds : List String)
    (rawNotifications : List RawNotification) : List NotificationGroup :=
  let filtered := rawNotifications.filter (fun n => !(markedAsReadIds.contains n.id))
  let items := filtered.map toDisplayItem
  (groupByRepo items).map (fun p => { repository := p.1, notifications := sortByUpdatedDesc p.2 })

/-- Whether some display group contains a notification with the given id. -/
def displayHasId (gs : List NotificationGroup) (i : String) : Bool :=
  gs.any (fun g => g.notifications.any (fun n => n.id == i))

/-- Total number of displayed items, as computed in `loadNotifications` by
`groupedNotifications.reduce((total, group) => total + group.notifications.length, 0)`. -/
def displayCount (gs : List NotificationGroup) : Nat :=
  (gs.map (fun g => g.notifications.length)).sum

/-- Session-scoped reconciliation state of `App`. Field names follow the
specification; the TS state they embed is noted per field:
`knownIds` is `previousIdsRef.current` (a JS `Set`, embedded as a
duplicate-free insertion-ordered list), `lastSeenUpdatedAt` is
`lastSeenUpdatedAtRef.current`, `locallyMarkedReadIds` is `markedAsReadIds`,
and `previousVisibleCount` is `previousNotificationCount`. -/
structure ReconciliationState where
  knownIds : List String
  lastSeenUpdatedAt : Option Nat
  locallyMarkedReadIds : List String
  previousVisibleCount : Nat
  deriving Repr, DecidableEq

/-- Initial state at session start: all refs empty / null / zero. -/
def initialReconciliationState : ReconciliationState :=
  { knownIds := []
    lastSeenUpdatedAt := none
    locallyMarkedReadIds := []
    previousVisibleCount := 0 }

/-- Alert classification produced by one `loadNotifications` cycle. The three
record-carrying constructors correspond to the branches that call
`notificationService.notifyNewNotifications`; `firstLoad` and `noChange`
correspond to the branches that only log. -/
inductive AlertClass where
  | newById (newIds : List String) (records : List RawNotification)
  | updatedByTimestamp (records : List RawNotification)
  | countDelta (delta : Nat) (records : List RawNotification)
  | firstLoad
  | noChange
  deriving Repr, DecidableEq

/-- Whether the classification reaches a `notifyNewNotifications` call
(which is what can play a sound or post a desktop notification). -/
def triggersAlert : AlertClass → Bool
  | AlertClass.newById _ _ => true
  | AlertClass.updatedByTimestamp _ => true
  | AlertClass.countDelta _ _ => true
  | AlertClass.firstLoad => false
  | AlertClass.noChange => false

/-- Embedding of the reconciliation part of `loadNotifications`
(`App.tsx`): given the previous state and the freshly fetched records,
compute the alert classification and the updated state.

Classification follows the source's branch structure exactly:
`newIds` is computed only when the previous id set is non-empty; if it is
non-empty the new-by-id branch fires and neither the updated-by-timestamp
nor the count-delta comparison is evaluated; otherwise updated-by-timestamp
(only when `lastSeenUpdatedAtRef.current` is non-null), then count-delta,
then the first-load / no-change logging branches.

State update mirrors the tail of `loadNotifications`:
`setPreviousNotificationCount(count)` where `count` sums the displayed
groups, `previousIdsRef.current = currentIds`, and
`lastSeenUpdatedAtRef.current` set to the greatest `updated_at` of the
fetched records (the source sorts descending and takes index 0, with
`|| null` yielding null for an empty fetch). -/
def reconcile (st : ReconciliationState) (rawNotifications : List RawNotification) :
    AlertClass × ReconciliationState :=
  let grouped := transformGitHubNotifications st.locallyMarkedReadIds rawNotifications
  let count := displayCount grouped
  let currentIds := jsSetOfList (rawNotifications.map (fun n => n.id))
  let newIds :=
    if st.knownIds.isEmpty then []
    else currentIds.filter (fun i => !st.knownIds.contains i)
  let classification :=
    if !newIds.isEmpty then
      AlertClass.newById newIds (rawNotifications.filter (fun n => newIds.contains n.id))
    else
      let updatedItems :=
        match st.lastSeenUpdatedAt with
        | some lastSeenTs => rawNotifications.filter (fun n => lastSeenTs < n.updated_at)
        | none => []
      if !updatedItems.isEmpty then
        AlertClass.updatedByTimestamp updatedItems
      else if 0 < st.previousVisibleCount ∧ st.previousVisibleCount < count then
        AlertClass.countDelta (count - st.previousVisibleCount)
          (rawNotifications.take (count - st.previousVisibleCount))
      else if st.previousVisibleCount = 0 ∧ 0 < count then
        AlertClass.firstLoad
      else
        AlertClass.noChange
  (classification,
   { knownIds := currentIds
     lastSeenUpdatedAt := (rawNotifications.map (fun n => n.updated_at)).max?
     locallyMarkedReadIds := st.locallyMarkedReadIds
     previousVisibleCount := count })

/-- Renderer state touched by the mark-as-read handlers. -/
structure AppState where
  notifications : List NotificationGroup
  unreadCount : Nat
  markedAsReadIds : List String
  deriving Repr, DecidableEq

/-- Embedding of `handleMarkAsRead` on the path where the remote
`markNotificationAsRead` call succeeds: flip the matching item's `unread`
flag to false, drop groups left with no unread item, and decrement the
unread count (`Math.max(0, prev - 1)` is `Nat` subtraction). The handler
never touches `markedAsReadIds`. -/
def handleMarkAsRead (s : AppState) (notificationId : String) : AppState :=
  let updated := s.notifications.map (fun g =>
    { g with
      notifications := g.notifications.map (fun n =>
        if n.id = notificationId then { n with unread := false } else n) })
  { s with
    notifications := updated.filter (fun g => g.notifications.any (fun n => n.unread))
    unreadCount := s.unreadCount - 1 }

/-- The currently visible notification ids, as collected by
`notifications.flatMap(group => group.notifications.map(notif => notif.id))`. -/
def visibleIds (s : AppState) : List String :=
  s.notifications.flatMap (fun g => g.notifications.map (fun n => n.id))

/-- Result reported by the filtered bulk mark-as-read loop. -/
structure MarkFilteredResult where
  markedCount : Nat
  totalFiltered : Nat
  deriving Repr, DecidableEq

/-- Embedding of the filtered branch of `handleMarkAllAsRead`. The remote
outcome of `markNotificationAsRead` per id is modelled by the oracle
`remoteOk`. The loop visits every visible id in order, counts successes, and
continues past failures (the `catch` only records an error message). When at
least one id was marked, every visible id — successes and failures alike —
is added to `markedAsReadIds` and the display is cleared; otherwise the
state is left unchanged. -/
def handleMarkAllAsReadFiltered (remoteOk : String → Bool) (s : AppState) :
    MarkFilteredResult × AppState :=
  let currentNotificationIds := visibleIds s
  let markedCount := (currentNotificationIds.filter remoteOk).length
  let result : MarkFilteredResult :=
    { markedCount := markedCount, totalFiltered := currentNotificationIds.length }
  if 0 < result.markedCount then
    (result,
     { notifications := []
       unreadCount := 0
       markedAsReadIds := currentNotificationIds.foldl jsSetInsert s.markedAsReadIds })
  else
    (result, s)

/-- Embedding of `handleRefresh`: a user-initiated manual refresh clears the
local mark-as-read suppression set before reloading. -/
def handleRefreshClear (s : AppState) : AppState :=
  { s with markedAsReadIds := [] }

/-- Embedding of `GitHubService.filterNotifications`
(`QuickActions.tsx`): the four-dimension client-side filter. The fast path
returns the input when all four selection lists are empty. Otherwise a
record passes only if it matches the repository/organization dimension, the
subject-type dimension and the reason dimension; a record without a
repository is excluded. When repository selections are non-empty, only the
direct repository check (`includes` or trimmed-string equality, the source
tests `repo.id.toString()` twice) is consulted and the
organization selection is ignored. -/
def filterNotifications (notifications : List RawNotification)
    (filterOrgs filterRepos filterSubjectTypes filterReasons : List String) :
    List RawNotification :=
  if filterOrgs.isEmpty && filterRepos.isEmpty &&
      filterSubjectTypes.isEmpty && filterReasons.isEmpty then
    notifications
  else
    notifications.filter (fun n =>
      match n.repository with
      | none => false
      | some repo =>
        let repoId := repo.id
        let ownerId := repo.owner.bind (fun o => o.id)
        let ownerLogin := repo.owner.bind (fun o => o.login)
        let isRepoSelected :=
          filterRepos.contains repoId || filterRepos.contains repo.id ||
            filterRepos.any (fun i => jsTrim i == jsTrim repoId)
        let isOwnerSelected :=
          (match ownerId with
           | some oid => filterOrgs.contains oid
           | none => false) ||
          (match ownerLogin with
           | some ologin => filterOrgs.contains ologin
           | none => false)
        let matchesRepoFilter :=
          if filterOrgs.isEmpty && filterRepos.isEmpty then true
          else if !filterRepos.isEmpty then isRepoSelected
          else if !filterOrgs.isEmpty then isOwnerSelected
          else false
        let matchesSubjectTypeFilter :=
          filterSubjectTypes.isEmpty || filterSubjectTypes.contains n.subject.type
        let matchesReasonFilter :=
          filterReasons.isEmpty || filterReasons.contains n.reason
        matchesRepoFilter && matchesSubjectTypeFilter && matchesReasonFilter)

/-- Embedding of the pagination loop of `GitHubService.getNotifications`.
`feed p` is the page of records the remote endpoint returns for page number
`p`. The loop runs while `currentPage <= maxPages`; a page shorter than the
requested page size ends the data (append and break), otherwise the page is
appended and the loop continues with the next page number. Returns the
accumulated records and the number of page requests the loop made. The
source also issues one probe request before the loop whose body is
discarded; only the loop is embedded here. -/
def fetchPages (feed : Nat → List RawNotification) (perPage currentPage maxPages : Nat) :
    List RawNotification × Nat :=
  if currentPage ≤ maxPages then
    let pageData := feed currentPage
    if pageData.length < perPage then
      (pageData, 1)
    else
      let rest := fetchPages feed perPage (currentPage + 1) maxPages
      (pageData ++ rest.1, rest.2 + 1)
  else
    ([], 0)
termination_by maxPages + 1 - currentPage
decreasing_by omega

/-- Parameters of `GitHubService.getNotifications` that the pagination and
client-side filtering consult. An absent optional field is `none`. -/
structure FetchParams where
  per_page : Option Nat
  page : Option Nat
  maxPages : Option Nat
  filterOrgs : Option (List String)
  filterRepos : Option (List String)
  filterSubjectTypes : Option (List String)
  filterReasons : Option (List String)
  deriving Repr, DecidableEq

/-- JavaScript `v || d` on an optional number: `undefined` and `0` are both
falsy, so the default applies to either. -/
def jsOrNat (v : Option Nat) (d : Nat) : Nat :=
  match v with
  | some n => if n = 0 then d else n
  | none => d

/-- Pagination part of `GitHubService.getNotifications` with the source's
defaults applied: `params.per_page || 100`, `params.page || 1`,
`params.maxPages || 3`. -/
def getNotificationsPaged (feed : Nat → List RawNotification) (params : FetchParams) :
    List RawNotification × Nat :=
  fetchPages feed (jsOrNat params.per_page 100) (jsOrNat params.page 1)
    (jsOrNat params.maxPages 3)

/-- Embedding of `GitHubService.getNotifications`: fetch pages, then apply
the client-side filter when any of the four filter parameters was supplied
(a supplied-but-empty array is truthy in JS and also enters the filter
branch, where the fast path then returns everything). -/
def getNotifications (feed : Nat → List RawNotification) (params : FetchParams) :
    List RawNotification :=
  let allNotifications := (getNotificationsPaged feed params).1
  if params.filterOrgs.isSome || params.filterRepos.isSome ||
      params.filterSubjectTypes.isSome || params.filterReasons.isSome then
    filterNotifications allNotifications (params.filterOrgs.getD [])
      (params.filterRepos.getD []) (params.filterSubjectTypes.getD [])
      (params.filterReasons.getD [])
  else
    allNotifications

/-- Lookup of a key's bucket in the `grouped` accumulator (first match),
used to state properties of `groupByRepo`. -/
def lookupGroup (k : String) : List (String × List AppNotification) → Option (List AppNotification)
  | [] => none
  | (k', items) :: rest => if k' = k then some items else lookupGroup k rest

/-- Sample raw notification builder used by concrete witnesses below. -/
def mkRaw (i repoId repoName ownerLogin : String) (upd : Nat) : RawNotification :=
  { id := i
    repository := some { id := repoId, full_name := repoName,
                         owner := some { id := none, login := some ownerLogin } }
    subject := { title := "t", type := "Issue",
                 url := "https://api.github.com/repos/" ++ repoName ++ "/issues/7" }
    reason := "mention"
    read_at := none
    updated_at := upd
    thread_id := none }

/-- Record with id 1 in repository `a/x` (repo id 101, owner `orgA`). -/
def exA : RawNotification := mkRaw "1" "101" "a/x" "orgA" 10

/-- Record with id 2 in repository `b/y` (repo id 202, owner `orgB`). -/
def exB : RawNotification := mkRaw "2" "202" "b/y" "orgB" 20

/-- Record with the already-known id 1, updated later (timestamp 30). -/
def exA' : RawNotification := mkRaw "1" "101" "a/x" "orgA" 30

/-- Sample display item builder used by concrete witnesses below. -/
def mkItem (i repoName : String) (upd : Nat) : AppNotification :=
  { id := i, title := "t", type := "Issue", repository := repoName,
    updatedAt := upd, unread := true, url := "", reason := "mention" }

/-- App state showing five notifications of repository `a/x`. -/
def exState5 : AppState :=
  { notifications :=
      [{ repository := "a/x"
         notifications :=
           [mkItem "1" "a/x" 50, mkItem "2" "a/x" 40, mkItem "3" "a/x" 30,
            mkItem "4" "a/x" 20, mkItem "5" "a/x" 10] }]
    unreadCount := 5
    markedAsReadIds := [] }

/-- Remote oracle that fails exactly on thread id 3. -/
def failsOnThree : String → Bool := fun i => !(i == "3")

/-- App state showing the single record `exA`, nothing locally suppressed. -/
def exState1 : AppState :=
  { notifications := [{ repository := "a/x", notifications := [mkItem "1" "a/x" 10] }]
    unreadCount := 1
    markedAsReadIds := [] }

/-- Reconciliation state that has seen the single id 1, with
`lastSeenUpdatedAt` 5 and one previously visible record. -/
def exStateKnown : ReconciliationState :=
  { knownIds := ["1"], lastSeenUpdatedAt := some 5,
    locallyMarkedReadIds := [], previousVisibleCount := 1 }

/-- Fresh reconciliation state whose suppression set already holds id 1. -/
def exStateSuppressed : ReconciliationState :=
  { knownIds := [], lastSeenUpdatedAt := none,
    locallyMarkedReadIds := ["1"], previousVisibleCount := 0 }

/-! ### Helper lemmas about the embedded set and grouping operations -/

theorem mem_jsSetInsert {s : List String} {y x : String} :
    x ∈ jsSetInsert s y ↔ x ∈ s ∨ x = y := by
  unfold jsSetInsert
  split
  · rename_i h
    simp only [List.elem_eq_mem, decide_eq_true_eq] at h
    constructor
    · exact Or.inl
    · rintro (hx | rfl)
      · exact hx
      · exact h
  · simp

theorem mem_foldl_jsSetInsert (l : List String) :
    ∀ (acc : List String) (x : String),
      x ∈ l.foldl jsSetInsert acc ↔ x ∈ acc ∨ x ∈ l := by
  induction l with
  | nil => simp
  | cons a t ih =>
    intro acc x
    rw [List.foldl_cons, ih, mem_jsSetInsert]
    simp only [List.mem_cons]
    tauto

theorem mem_jsSetOfList {l : List String} {x : String} :
    x ∈ jsSetOfList l ↔ x ∈ l := by
  simpa [jsSetOfList] using mem_foldl_jsSetInsert l [] x

theorem nodup_jsSetInsert {l : List String} {x : String} (h : l.Nodup) :
    (jsSetInsert l x).Nodup := by
  unfold jsSetInsert
  split
  · exact h
  · rename_i hc
    simp only [List.elem_eq_mem, decide_eq_true_eq] at hc
    simp [List.nodup_append, h, hc]

theorem nodup_foldl_jsSetInsert (l : List String) :
    ∀ acc : List String, acc.Nodup → (l.foldl jsSetInsert acc).Nodup := by
  induction l with
  | nil => exact fun _ h => h
  | cons a t ih =>
    intro acc hacc
    exact ih _ (nodup_jsSetInsert hacc)

theorem nodup_jsSetOfList (l : List String) : (jsSetOfList l).Nodup :=
  nodup_foldl_jsSetInsert l [] List.nodup_nil

theorem lookupGroup_insertIntoGroups (gs : List (String × List AppNotification))
    (key k : String) (x : AppNotification) :
    lookupGroup k (insertIntoGroups gs key x) =
      if k = key then some (((lookupGroup key gs).getD []) ++ [x]) else lookupGroup k gs := by
  induction gs with
  | nil =>
    by_cases h : k = key
    · subst h
      simp [insertIntoGroups, lookupGroup]
    · have h2 : ¬(key = k) := fun hh => h hh.symm
      simp [insertIntoGroups, lookupGroup, h, h2]
  | cons p rest ih =>
    obtain ⟨k', items⟩ := p
    simp only [insertIntoGroups]
    by_cases hk : k' = key
    · subst hk
      rw [if_pos rfl]
      by_cases h : k' = k
      · subst h
        simp [lookupGroup]
      · have h2 : ¬(k = k') := fun hh => h hh.symm
        simp [lookupGroup, h, h2]
    · rw [if_neg hk]
      by_cases h1 : k' = k
      · subst h1
        have h2 : ¬(k' = key) := hk
        simp [lookupGroup, h2]
      · by_cases h2 : k = key
        · subst h2
          simp [lookupGroup, h1, ih, hk]
        · simp [lookupGroup, h1, ih, h2]

theorem keys_insertIntoGroups (gs : List (String × List AppNotification)) (key : String)
    (x : AppNotification) :
    (insertIntoGroups gs key x).map Prod.fst = jsSetInsert (gs.map Prod.fst) key := by
  induction gs with
  | nil => simp [insertIntoGroups, jsSetInsert]
  | cons p rest ih =>
    obtain ⟨k', items⟩ := p
    simp only [insertIntoGroups]
    by_cases hk : k' = key
    · subst hk
      rw [if_pos rfl]
      simp [jsSetInsert, List.contains_cons]
    · rw [if_neg hk]
      have hbeq : (key == k') = false := by
        simp only [beq_eq_false_iff_ne, ne_eq]
        exact fun hh => hk hh.symm
      simp only [List.map_cons, ih, jsSetInsert, List.contains_cons, hbeq, Bool.false_or]
      by_cases hc : (rest.map Prod.fst).contains key = true
      · rw [if_pos hc, if_pos hc]
      · rw [if_neg hc, if_neg hc, List.cons_append]

theorem lookupGroup_foldl_insert (items : List AppNotification) :
    ∀ (acc : List (String × List AppNotification)) (done : List AppNotification),
      (∀ k, lookupGroup k acc =
        if k ∈ done.map (fun it => it.repository) then
          some (done.filter (fun it => it.repository == k)) else none) →
      ∀ k, lookupGroup k (items.foldl (fun gs it => insertIntoGroups gs it.repository it) acc) =
        if k ∈ (done ++ items).map (fun it => it.repository) then
          some ((done ++ items).filter (fun it => it.repository == k)) else none := by
  induction items with
  | nil =>
    intro acc done h k
    simpa using h k
  | cons x t ih =>
    intro acc done h k
    rw [List.foldl_cons]
    have hstep : ∀ k2, lookupGroup k2 (insertIntoGroups acc x.repository x) =
        if k2 ∈ (done ++ [x]).map (fun it => it.repository) then
          some ((done ++ [x]).filter (fun it => it.repository == k2)) else none := by
      intro k2
      rw [lookupGroup_insertIntoGroups, h k2, h x.repository]
      by_cases h2 : k2 = x.repository
      · subst h2
        rw [if_pos rfl]
        by_cases h3 : x.repository ∈ done.map (fun it => it.repository)
        · rw [if_pos h3]
          have h4 : x.repository ∈ (done ++ [x]).map (fun it => it.repository) := by
            simp [List.mem_append, h3]
          rw [if_pos h4, List.filter_append]
          simp
        · rw [if_neg h3]
          have h4 : x.repository ∈ (done ++ [x]).map (fun it => it.repository) := by
            simp [List.mem_append]
          rw [if_pos h4, List.filter_append]
          have h5 : done.filter (fun it => it.repository == x.repository) = [] := by
            rw [List.filter_eq_nil_iff]
            intro a ha hbeq
            exact h3 (by
              have har : a.repository = x.repository := by simpa using hbeq
              exact har ▸ List.mem_map_of_mem _ ha)
          simp [h5]
      · rw [if_neg h2]
        have hxk : (x.repository == k2) = false := by
          simp only [beq_eq_false_iff_ne, ne_eq]
          exact fun hh => h2 hh.symm
        have hmap : (k2 ∈ (done ++ [x]).map (fun it => it.repository)) ↔
            k2 ∈ done.map (fun it => it.repository) := by
          simp only [List.map_append, List.mem_append, List.map_cons, List.map_nil,
            List.mem_singleton]
          constructor
          · rintro (hd | hx)
            · exact hd
            · exact absurd hx h2
          · exact Or.inl
        have hfil : (done ++ [x]).filter (fun it => it.repository == k2) =
            done.filter (fun it => it.repository == k2) := by
          rw [List.filter_append]
          simp [hxk]
        by_cases h3 : k2 ∈ done.map (fun it => it.repository)
        · rw [if_pos h3, if_pos (hmap.mpr h3), hfil]
        · rw [if_neg h3, if_neg (fun hh => h3 (hmap.mp hh))]
    have hres := ih _ (done ++ [x]) hstep k
    simpa [List.append_assoc] using hres

theorem lookupGroup_groupByRepo (items : List AppNotification) (k : String) :
    lookupGroup k (groupByRepo items) =
      if k ∈ items.map (fun it => it.repository) then
        some (items.filter (fun it => it.repository == k)) else none := by
  have h0 : ∀ k2, lookupGroup k2 ([] : List (String × List AppNotification)) =
      if k2 ∈ ([] : List AppNotification).map (fun it => it.repository) then
        some (([] : List AppNotification).filter (fun it => it.repository == k2)) else none := by
    intro k2
    simp [lookupGroup]
  simpa using lookupGroup_foldl_insert items [] [] h0 k

theorem keys_foldl_insert (items : List AppNotification) :
    ∀ acc : List (String × List AppNotification),
      (items.foldl (fun gs it => insertIntoGroups gs it.repository it) acc).map Prod.fst =
        (items.map (fun it => it.repository)).foldl jsSetInsert (acc.map Prod.fst) := by
  induction items with
  | nil => intro acc; simp
  | cons x t ih =>
    intro acc
    rw [List.foldl_cons, ih, List.map_cons, List.foldl_cons, keys_insertIntoGroups]

theorem groupByRepo_keys (items : List AppNotification) :
    (groupByRepo items).map Prod.fst = jsSetOfList (items.map (fun it => it.repository)) := by
  simpa [jsSetOfList] using keys_foldl_insert items []

theorem mem_of_lookupGroup {gs : List (String × List AppNotification)} {k : String}
    {v : List AppNotification} (h : lookupGroup k gs = some v) : (k, v) ∈ gs := by
  induction gs with
  | nil => simp [lookupGroup] at h
  | cons p rest ih =>
    obtain ⟨k', items⟩ := p
    simp only [lookupGroup] at h
    split at h
    · rename_i hk
      subst hk
      cases h
      exact List.mem_cons_self _ _
    · exact List.mem_cons_of_mem _ (ih h)

theorem lookupGroup_eq_of_mem {gs : List (String × List AppNotification)}
    (hnd : (gs.map Prod.fst).Nodup) {p : String × List AppNotification} (hp : p ∈ gs) :
    lookupGroup p.1 gs = some p.2 := by
  induction gs with
  | nil => cases hp
  | cons q rest ih =>
    obtain ⟨k', items⟩ := q
    simp only [List.map_cons, List.nodup_cons] at hnd
    rcases List.mem_cons.mp hp with rfl | hp'
    · simp [lookupGroup]
    · have hk : ¬(k' = p.1) := by
        intro hh
        exact hnd.1 (hh ▸ List.mem_map_of_mem Prod.fst hp')
      simp only [lookupGroup, if_neg hk]
      exact ih hnd.2 hp'

theorem groupByRepo_bucket_eq {items : List AppNotification}
    {p : String × List AppNotification} (hp : p ∈ groupByRepo items) :
    p.2 = items.filter (fun it => it.repository == p.1) := by
  have hnd : ((groupByRepo items).map Prod.fst).Nodup := by
    rw [groupByRepo_keys]
    exact nodup_jsSetOfList _
  have h := lookupGroup_eq_of_mem hnd hp
  rw [lookupGroup_groupByRepo] at h
  by_cases hm : p.1 ∈ items.map (fun it => it.repository)
  · rw [if_pos hm] at h
    exact (Option.some_inj.mp h).symm
  · rw [if_neg hm] at h
    cases h

theorem mem_groupByRepo_bucket {items : List AppNotification} {it : AppNotification}
    (h : it ∈ items) :
    ∃ p ∈ groupByRepo items, p.1 = it.repository ∧ it ∈ p.2 := by
  have hm : it.repository ∈ items.map (fun x => x.repository) :=
    List.mem_map_of_mem _ h
  have hl := lookupGroup_groupByRepo items it.repository
  rw [if_pos hm] at hl
  refine ⟨(it.repository, items.filter (fun x => x.repository == it.repository)),
    mem_of_lookupGroup hl, rfl, ?_⟩
  exact List.mem_filter.mpr ⟨h, by simp⟩

theorem bucketsLen_insertIntoGroups (gs : List (String × List AppNotification))
    (key : String) (x : AppNotification) :
    ((insertIntoGroups gs key x).map (fun p => p.2.length)).sum =
      ((gs.map (fun p => p.2.length)).sum) + 1 := by
  induction gs with
  | nil => simp [insertIntoGroups]
  | cons p rest ih =>
    obtain ⟨k', items⟩ := p
    simp only [insertIntoGroups]
    by_cases hk : k' = key
    · rw [if_pos hk]
      simp only [List.map_cons, List.sum_cons, List.length_append, List.length_cons,
        List.length_nil]
      omega
    · rw [if_neg hk]
      simp only [List.map_cons, List.sum_cons, ih]
      omega

theorem bucketsLen_foldl (items : List AppNotification) :
    ∀ acc : List (String × List AppNotification),
      (((items.foldl (fun gs it => insertIntoGroups gs it.repository it) acc)).map
          (fun p => p.2.length)).sum =
        ((acc.map (fun p => p.2.length)).sum) + items.length := by
  induction items with
  | nil => intro acc; simp
  | cons x t ih =>
    intro acc
    rw [List.foldl_cons, ih, bucketsLen_insertIntoGroups]
    simp only [List.length_cons]
    omega

theorem length_sortByUpdatedDesc (l : List AppNotification) :
    (sortByUpdatedDesc l).length = l.length :=
  List.length_insertionSort _ l

theorem mem_sortByUpdatedDesc {l : List AppNotification} {x : AppNotification} :
    x ∈ sortByUpdatedDesc l ↔ x ∈ l :=
  List.mem_insertionSort updatedDescRel

theorem sorted_sortByUpdatedDesc (l : List AppNotification) :
    (sortByUpdatedDesc l).Sorted updatedDescRel :=
  List.sorted_insertionSort updatedDescRel l

theorem perm_sortByUpdatedDesc (l : List AppNotification) :
    List.Perm (sortByUpdatedDesc l) l :=
  List.perm_insertionSort _ l

theorem sum_len_sorted_buckets (gs : List (String × List AppNotification)) :
    (gs.map (fun p => (sortByUpdatedDesc p.2).length)).sum =
      (gs.map (fun p => p.2.length)).sum := by
  induction gs with
  | nil => rfl
  | cons p rest ih => simp [length_sortByUpdatedDesc, ih]

theorem displayCount_transform (m : List String) (raw : List RawNotification) :
    displayCount (transformGitHubNotifications m raw) =
      (raw.filter (fun n => !(m.contains n.id))).length := by
  simp only [transformGitHubNotifications, displayCount, List.map_map, Function.comp_def]
  rw [sum_len_sorted_buckets]
  have h2 := bucketsLen_foldl ((raw.filter (fun n => !(m.contains n.id))).map toDisplayItem) []
  simp only [groupByRepo]
  simp only [List.map_nil, List.sum_nil, Nat.zero_add] at h2
  rw [h2]
  simp

theorem displayHasId_transform {m : List String} {raw : List RawNotification}
    {r : RawNotification} (hr : r ∈ raw) (hm : m.contains r.id = false) :
    displayHasId (transformGitHubNotifications m raw) r.id = true := by
  have hfil : r ∈ raw.filter (fun n => !(m.contains n.id)) :=
    List.mem_filter.mpr ⟨hr, by simp only [hm, Bool.not_false]⟩
  have hit : toDisplayItem r ∈ (raw.filter (fun n => !(m.contains n.id))).map toDisplayItem :=
    List.mem_map_of_mem _ hfil
  obtain ⟨p, hp, _, hmem⟩ := mem_groupByRepo_bucket hit
  simp only [displayHasId, transformGitHubNotifications]
  apply List.any_eq_true.mpr
  refine ⟨{ repository := p.1, notifications := sortByUpdatedDesc p.2 },
    List.mem_map_of_mem _ hp, ?_⟩
  apply List.any_eq_true.mpr
  exact ⟨toDisplayItem r, mem_sortByUpdatedDesc.mpr hmem, by simp [toDisplayItem]⟩

/-! ### Claim theorems -/

/-- C9: filtering with all four selection sets empty returns the input list
unchanged, preserving content and order (the fast path of
`filterNotifications`). -/
theorem noop_filter_identity (ns : List RawNotification) :
    filterNotifications ns [] [] [] [] = ns := by
  simp [filterNotifications]

/-- C4: whenever the repository selection is non-empty, `filterNotifications`
keeps only records whose repository is present and whose repository id
matches the selection (by direct membership or trimmed-string equality), and
the result does not depend on the organization selection at all. -/
theorem filter_repository_precedence (ns : List RawNotification)
    (orgs repos types reasons : List String) (hrepos : repos ≠ []) :
    (∀ n ∈ filterNotifications ns orgs repos types reasons,
        ∃ repo, n.repository = some repo ∧
          (repo.id ∈ repos ∨ ∃ i ∈ repos, jsTrim i = jsTrim repo.id)) ∧
    (∀ orgs2 : List String,
        filterNotifications ns orgs repos types reasons =
          filterNotifications ns orgs2 repos types reasons) := by
  have hre : repos.isEmpty = false := List.isEmpty_eq_false.mpr hrepos
  constructor
  · intro n hn
    simp only [filterNotifications, hre, Bool.and_false, Bool.false_and] at hn
    rw [if_neg (by simp)] at hn
    have hmem := List.mem_filter.mp hn
    rcases hrep : n.repository with _ | repo
    · rw [hrep] at hmem
      simp at hmem
    · have hp := hmem.2
      rw [hrep] at hp
      simp [hre] at hp
      exact ⟨repo, rfl, hp.1.1⟩
  · intro orgs2
    simp only [filterNotifications, hre, Bool.and_false, Bool.false_and]
    rw [if_neg (by simp), if_neg (by simp)]
    apply List.filter_congr
    intro n _
    cases hrep : n.repository with
    | none => simp
    | some repo => simp [hre]

/-- C4 witness: with repository selection `{101}` (repository `a/x`) and the
organization selection holding the owner of the other repository `b/y`, the
filter output ignores the organization selection and returns only the
record of repository 101. -/
theorem filter_repository_precedence_witness :
    (filterNotifications [exA, exB] ["orgB"] ["101"] [] [] =
      filterNotifications [exA, exB] ["zzz"] ["101"] [] []) ∧
    (filterNotifications [exA, exB] ["orgB"] ["101"] [] [] = [exA]) :=
  ⟨(filter_repository_precedence [exA, exB] ["orgB"] ["101"] [] [] (by decide)).2 ["zzz"],
   by decide⟩

/-- C1: in a cycle whose previous known-id set is non-empty, when the fresh
set has a record with an unknown id and also a record with a known id whose
`updatedAt` is newer than `lastSeenUpdatedAt`, the classification is New —
the updated-by-timestamp and count-delta branches are not evaluated, being
in the `else` of the new-by-id check — and the alerted records are exactly
the fresh records whose ids are not previously known. -/
theorem reconcile_new_by_id_priority (st : ReconciliationState)
    (raw : List RawNotification) (n1 n2 : RawNotification) (t : Nat)
    (hknown : st.knownIds ≠ [])
    (h1 : n1 ∈ raw) (h1new : st.knownIds.contains n1.id = false)
    (_h2 : n2 ∈ raw) (_h2known : st.knownIds.contains n2.id = true)
    (_hlast : st.lastSeenUpdatedAt = some t) (_h2upd : t < n2.updated_at) :
    (reconcile st raw).1 =
      AlertClass.newById
        ((jsSetOfList (raw.map (fun n => n.id))).filter (fun i => !st.knownIds.contains i))
        (raw.filter (fun n => !st.knownIds.contains n.id)) := by
  have hke : st.knownIds.isEmpty = false := List.isEmpty_eq_false.mpr hknown
  have hmem : n1.id ∈ (jsSetOfList (raw.map (fun n => n.id))).filter
      (fun i => !st.knownIds.contains i) :=
    List.mem_filter.mpr ⟨mem_jsSetOfList.mpr (List.mem_map_of_mem _ h1), by simpa using h1new⟩
  have hne : ((jsSetOfList (raw.map (fun n => n.id))).filter
      (fun i => !st.knownIds.contains i)).isEmpty = false :=
    List.isEmpty_eq_false.mpr (List.ne_nil_of_mem hmem)
  have hpt : ∀ n ∈ raw,
      (((jsSetOfList (raw.map (fun n => n.id))).filter
        (fun i => !st.knownIds.contains i)).contains n.id) =
      (!st.knownIds.contains n.id) := by
    intro n hn
    by_cases hc : st.knownIds.contains n.id = true
    · have hnotin : n.id ∉ (jsSetOfList (raw.map (fun n => n.id))).filter
          (fun i => !st.knownIds.contains i) := by
        intro hin
        have hb := (List.mem_filter.mp hin).2
        rw [hc] at hb
        simp at hb
      rw [hc, Bool.not_true]
      simp only [List.elem_eq_mem, decide_eq_false_iff_not]
      simpa using hnotin
    · have hc2 : st.knownIds.contains n.id = false := by
        simpa using hc
      have hin : n.id ∈ (jsSetOfList (raw.map (fun n => n.id))).filter
          (fun i => !st.knownIds.contains i) :=
        List.mem_filter.mpr ⟨mem_jsSetOfList.mpr (List.mem_map_of_mem _ hn), by simpa using hc2⟩
      rw [hc2, Bool.not_false]
      simp only [List.elem_eq_mem, decide_eq_true_eq]
      simpa using hin
  simp only [reconcile, hke, Bool.false_eq_true, if_false, hne, Bool.not_false, if_true]
  rw [List.filter_congr hpt]

/-- C1 witness: with known id 1 (last seen timestamp 10), a fresh set holding
the brand-new id 2 and the known id 1 updated at 30 classifies as New with
exactly the id-2 record. -/
theorem reconcile_new_by_id_priority_witness :
    (reconcile { knownIds := ["1"], lastSeenUpdatedAt := some 10,
                 locallyMarkedReadIds := [], previousVisibleCount := 1 } [exB, exA']).1 =
      AlertClass.newById ["2"] [exB] := by
  have h := reconcile_new_by_id_priority
    { knownIds := ["1"], lastSeenUpdatedAt := some 10,
      locallyMarkedReadIds := [], previousVisibleCount := 1 }
    [exB, exA'] exB exA' 10 (by decide) (by decide) (by decide) (by decide) (by decide)
    rfl (by decide)
  rw [h]
  decide

/-- C7: reconciling any non-empty fresh set against the initial empty state
classifies as first-load ("no alert"), which triggers neither a sound nor a
desktop notification. -/
theorem first_load_suppression (raw : List RawNotification) (hne : raw ≠ []) :
    (reconcile initialReconciliationState raw).1 = AlertClass.firstLoad ∧
    triggersAlert (reconcile initialReconciliationState raw).1 = false := by
  have hcount : displayCount (transformGitHubNotifications [] raw) = raw.length := by
    rw [displayCount_transform]
    simp
  have hcls : (reconcile initialReconciliationState raw).1 = AlertClass.firstLoad := by
    simp only [reconcile, initialReconciliationState]
    simp only [List.isEmpty_nil, if_true, List.filter_nil]
    rw [hcount]
    simp [List.length_pos, hne]
  exact ⟨hcls, by rw [hcls]; rfl⟩

/-- C7 witness: the initial state plus the one-record fresh set `[exA]`
yields the non-alerting first-load classification. -/
theorem first_load_suppression_witness :
    (reconcile initialReconciliationState [exA]).1 = AlertClass.firstLoad ∧
    triggersAlert (reconcile initialReconciliationState [exA]).1 = false :=
  first_load_suppression [exA] (by decide)

/-- C10: a cycle that observes an empty fresh set resets the baselines —
known ids become empty, `lastSeenUpdatedAt` becomes null, the previous
visible count becomes 0 — and therefore the immediately following cycle
never calls the notify path, whatever fresh set it observes. -/
theorem empty_fetch_resets_and_suppresses (st : ReconciliationState)
    (raw2 : List RawNotification) :
    (reconcile st []).2.knownIds = [] ∧
    (reconcile st []).2.lastSeenUpdatedAt = none ∧
    (reconcile st []).2.previousVisibleCount = 0 ∧
    triggersAlert (reconcile (reconcile st []).2 raw2).1 = false := by
  have hst : (reconcile st []).2 =
      { knownIds := [], lastSeenUpdatedAt := none,
        locallyMarkedReadIds := st.locallyMarkedReadIds, previousVisibleCount := 0 } := by
    simp [reconcile, transformGitHubNotifications, groupByRepo, displayCount, jsSetOfList]
  refine ⟨by rw [hst], by rw [hst], by rw [hst], ?_⟩
  rw [hst]
  simp only [reconcile, List.isEmpty_nil, if_true]
  by_cases hc : 0 < displayCount
      (transformGitHubNotifications st.locallyMarkedReadIds raw2)
  · simp [hc, triggersAlert]
  · simp [hc, triggersAlert]

/-- C3 counterexample: reconciling the empty fresh set does not leave
`lastSeenUpdatedAt` unchanged — it resets it to null — and when a fetched
record is locally suppressed the stored previous count is the visible count,
not the fresh-record count. -/
theorem reconcile_state_update_counterexample :
    ((reconcile exStateKnown []).2.lastSeenUpdatedAt ≠ exStateKnown.lastSeenUpdatedAt) ∧
    ((reconcile exStateKnown []).2.lastSeenUpdatedAt = none) ∧
    ((reconcile exStateSuppressed [exA]).2.previousVisibleCount ≠
      ([exA] : List RawNotification).length) ∧
    ((reconcile exStateSuppressed [exA]).2.previousVisibleCount = 0) := by
  decide

/-- C3 amended: after every reconcile cycle, `knownIds` is exactly the
(first-occurrence, deduplicated) ids of the fresh records — membership-wise
precisely the fresh ids, no stale ids — `lastSeenUpdatedAt` is the maximum
`updatedAt` of the fresh records and null for an empty fresh set, the
suppression set is untouched, and `previousVisibleCount` is the number of
fresh records not locally marked read (the visible count). -/
theorem reconcile_state_update (st : ReconciliationState) (raw : List RawNotification) :
    ((reconcile st raw).2.knownIds = jsSetOfList (raw.map (fun n => n.id))) ∧
    (∀ x, x ∈ (reconcile st raw).2.knownIds ↔ x ∈ raw.map (fun n => n.id)) ∧
    ((reconcile st raw).2.lastSeenUpdatedAt = (raw.map (fun n => n.updated_at)).max?) ∧
    ((reconcile st raw).2.previousVisibleCount =
      (raw.filter (fun n => !(st.locallyMarkedReadIds.contains n.id))).length) ∧
    ((reconcile st raw).2.locallyMarkedReadIds = st.locallyMarkedReadIds) := by
  refine ⟨rfl, ?_, rfl, ?_, rfl⟩
  · intro x
    exact mem_jsSetOfList
  · exact displayCount_transform st.locallyMarkedReadIds raw

/-- C3 witness: reconciling the fresh set `[exB]` makes id 2 known. -/
theorem reconcile_state_update_witness :
    "2" ∈ (reconcile exStateKnown [exB]).2.knownIds :=
  ((reconcile_state_update exStateKnown [exB]).2.1 "2").mpr (by decide)

/-- C2 counterexample: after a successful `handleMarkAsRead("1")` the
suppression set is still empty — the id is not added — so a refresh whose
feed still contains the record with id 1 shows it again in the display
groups. -/
theorem optimistic_mark_read_counterexample :
    ((handleMarkAsRead exState1 "1").markedAsReadIds = ([] : List String)) ∧
    (displayHasId (transformGitHubNotifications
        (handleMarkAsRead exState1 "1").markedAsReadIds [exA]) "1" = true) := by
  decide

/-- C2 amended: `handleMarkAsRead` never touches `locallyMarkedReadIds`
(only the filtered bulk path adds to it), so a subsequent refresh whose
fetched feed still contains a not-previously-suppressed record with that id
shows the id again; a user-initiated manual refresh clears the suppression
set. -/
theorem markOneRead_no_suppression (s : AppState) (i : String)
    (raw : List RawNotification) (r : RawNotification)
    (hr : r ∈ raw) (hid : r.id = i)
    (hm : s.markedAsReadIds.contains r.id = false) :
    ((handleMarkAsRead s i).markedAsReadIds = s.markedAsReadIds) ∧
    (displayHasId (transformGitHubNotifications
        (handleMarkAsRead s i).markedAsReadIds raw) i = true) ∧
    ((handleRefreshClear s).markedAsReadIds = []) := by
  have h1 : (handleMarkAsRead s i).markedAsReadIds = s.markedAsReadIds := rfl
  refine ⟨h1, ?_, rfl⟩
  rw [h1, ← hid]
  exact displayHasId_transform hr hm

/-- C2 witness: state showing record 1, remote mark succeeds, feed still
returns the record — it is displayed again. -/
theorem markOneRead_no_suppression_witness :
    ((handleMarkAsRead exState1 "1").markedAsReadIds = exState1.markedAsReadIds) ∧
    (displayHasId (transformGitHubNotifications
        (handleMarkAsRead exState1 "1").markedAsReadIds [exA]) "1" = true) ∧
    ((handleRefreshClear exState1).markedAsReadIds = []) :=
  markOneRead_no_suppression exState1 "1" [exA] exA (by decide) (by decide) (by decide)

/-- C5 counterexample: five visible records where the third remote update
fails — the result reports 4 of 5, but the failed id 3 is still added to
the suppression set, contradicting the claim that only the successful ids
are added. -/
theorem mark_filtered_counterexample :
    ((handleMarkAllAsReadFiltered failsOnThree exState5).1.markedCount = 4) ∧
    ((handleMarkAllAsReadFiltered failsOnThree exState5).1.totalFiltered = 5) ∧
    ("3" ∈ (handleMarkAllAsReadFiltered failsOnThree exState5).2.markedAsReadIds) := by
  decide

/-- C5 amended: the filtered bulk mark-as-read loop visits every visible id,
continues past failures, and reports the number of successes and the number
attempted; when at least one succeeded, every attempted id — the failed ones
included — is added to `locallyMarkedReadIds`, otherwise the state is
unchanged. -/
theorem mark_filtered_partial_failure (remoteOk : String → Bool) (s : AppState) :
    ((handleMarkAllAsReadFiltered remoteOk s).1.totalFiltered = (visibleIds s).length) ∧
    ((handleMarkAllAsReadFiltered remoteOk s).1.markedCount =
      ((visibleIds s).filter remoteOk).length) ∧
    (∀ i, i ∈ (handleMarkAllAsReadFiltered remoteOk s).2.markedAsReadIds ↔
      (i ∈ s.markedAsReadIds ∨
        (0 < ((visibleIds s).filter remoteOk).length ∧ i ∈ visibleIds s))) := by
  unfold handleMarkAllAsReadFiltered
  by_cases h : 0 < ((visibleIds s).filter remoteOk).length
  · rw [if_pos h]
    refine ⟨rfl, rfl, ?_⟩
    intro i
    rw [mem_foldl_jsSetInsert]
    constructor
    · rintro (hin | hin)
      · exact Or.inl hin
      · exact Or.inr ⟨h, hin⟩
    · rintro (hin | ⟨_, hin⟩)
      · exact Or.inl hin
      · exact Or.inr hin
  · rw [if_neg h]
    refine ⟨rfl, rfl, ?_⟩
    intro i
    constructor
    · exact Or.inl
    · rintro (hin | ⟨hpos, _⟩)
      · exact hin
      · exact absurd hpos h

/-- C5 witness: in the 4-of-5 scenario the failed id 3 lands in the
suppression set via the amended characterization. -/
theorem mark_filtered_partial_failure_witness :
    "3" ∈ (handleMarkAllAsReadFiltered failsOnThree exState5).2.markedAsReadIds :=
  ((mark_filtered_partial_failure failsOnThree exState5).2.2 "3").mpr
    (Or.inr ⟨by decide, by decide⟩)

/-- C6 counterexample: with input order `[exB, exA]` the groups come out in
first-occurrence order `b/y, a/x` — not sorted ascending by repository name —
and reversing the input order changes the output, so the ordering is not
input-order independent. -/
theorem grouping_order_counterexample :
    ((transformGitHubNotifications [] [exB, exA]).map (fun g => g.repository) =
      ["b/y", "a/x"]) ∧
    ¬ List.Sorted (fun a b : String => a.data ≤ b.data)
      ((transformGitHubNotifications [] [exB, exA]).map (fun g => g.repository)) ∧
    transformGitHubNotifications [] [exB, exA] ≠
      transformGitHubNotifications [] [exA, exB] := by
  decide

/-- C6 amended: grouping partitions the (suppression-filtered) records by
repository full name — each group holds exactly the items of its repository,
sorted by `updatedAt` descending — and the groups appear in first-occurrence
order of their repository in the input (not sorted by name), so the output
is a deterministic function of the ordered input. -/
theorem grouping_structure (m : List String) (raw : List RawNotification) :
    ((transformGitHubNotifications m raw).map (fun g => g.repository) =
      jsSetOfList (((raw.filter (fun n => !(m.contains n.id))).map toDisplayItem).map
        (fun it => it.repository))) ∧
    (∀ g ∈ transformGitHubNotifications m raw,
      g.notifications = sortByUpdatedDesc
        (((raw.filter (fun n => !(m.contains n.id))).map toDisplayItem).filter
          (fun it => it.repository == g.repository)) ∧
      List.Sorted updatedDescRel g.notifications ∧
      List.Perm g.notifications
        (((raw.filter (fun n => !(m.contains n.id))).map toDisplayItem).filter
          (fun it => it.repository == g.repository))) := by
  constructor
  · simp only [transformGitHubNotifications]
    rw [List.map_map, ← groupByRepo_keys]
    apply List.map_congr_left
    intro p _
    rfl
  · intro g hg
    simp only [transformGitHubNotifications] at hg
    obtain ⟨p, hp, rfl⟩ := List.mem_map.mp hg
    have hb := groupByRepo_bucket_eq hp
    refine ⟨?_, sorted_sortByUpdatedDesc p.2, ?_⟩
    · show sortByUpdatedDesc p.2 = _
      rw [hb]
    · show List.Perm (sortByUpdatedDesc p.2) _
      rw [hb]
      exact perm_sortByUpdatedDesc _

/-- C6 witness: on the two-repository input the group keys are the
first-occurrence deduplicated repository names. -/
theorem grouping_structure_witness :
    (transformGitHubNotifications [] [exB, exA]).map (fun g => g.repository) =
      jsSetOfList ((([exB, exA].filter
        (fun n => !(([] : List String).contains n.id))).map toDisplayItem).map
        (fun it => it.repository)) :=
  (grouping_structure [] [exB, exA]).1

theorem fetchPages_spec (feed : Nat → List RawNotification) (perPage : Nat) :
    ∀ (fuel currentPage maxPages : Nat), maxPages + 1 - currentPage ≤ fuel →
      (fetchPages feed perPage currentPage maxPages).2 ≤ maxPages + 1 - currentPage ∧
      (fetchPages feed perPage currentPage maxPages).1 =
        ((List.range' currentPage (fetchPages feed perPage currentPage maxPages).2).map
          feed).flatten ∧
      (∀ k, k + 1 < (fetchPages feed perPage currentPage maxPages).2 →
        perPage ≤ (feed (currentPage + k)).length) := by
  intro fuel
  induction fuel with
  | zero =>
    intro currentPage maxPages hf
    have hgt : ¬(currentPage ≤ maxPages) := by omega
    rw [fetchPages, if_neg hgt]
    refine ⟨by omega, by simp, ?_⟩
    intro k hk
    simp at hk
  | succ f ihf =>
    intro currentPage maxPages hf
    by_cases hle : currentPage ≤ maxPages
    · rw [fetchPages, if_pos hle]
      by_cases hshort : (feed currentPage).length < perPage
      · rw [if_pos hshort]
        refine ⟨by omega, ?_, ?_⟩
        · simp [List.range'_one]
        · intro k hk
          simp at hk
      · rw [if_neg hshort]
        obtain ⟨hb, hcat, hfull⟩ := ihf (currentPage + 1) maxPages (by omega)
        refine ⟨?_, ?_, ?_⟩
        · dsimp only
          omega
        · dsimp only
          rw [List.range'_succ, List.map_cons, List.flatten_cons, hcat]
        · intro k hk
          dsimp only at hk
          match k with
          | 0 =>
            simpa using Nat.le_of_not_lt hshort
          | (j + 1) =>
            have hj := hfull j (by omega)
            have harg : currentPage + 1 + j = currentPage + (j + 1) := by omega
            rw [harg] at hj
            exact hj
    · rw [fetchPages, if_neg hle]
      refine ⟨by omega, by simp, ?_⟩
      intro k hk
      simp at hk

/-- C8: the pagination loop of `getNotifications` makes at most the
effective `maxPages` page requests (`params.maxPages || 3`, so the default
cap is 3), returns exactly the concatenation of the pages it fetched, and
every fetched page before the last was full — it stops as soon as a page
comes back shorter than the effective page size. Termination is by
construction: the request count is bounded by the cap. -/
theorem fetch_pagination_bound (feed : Nat → List RawNotification) (params : FetchParams) :
    ((getNotificationsPaged feed params).2 ≤ jsOrNat params.maxPages 3) ∧
    ((getNotificationsPaged feed params).1 =
      ((List.range' (jsOrNat params.page 1) (getNotificationsPaged feed params).2).map
        feed).flatten) ∧
    (∀ k, k + 1 < (getNotificationsPaged feed params).2 →
      jsOrNat params.per_page 100 ≤ (feed (jsOrNat params.page 1 + k)).length) := by
  have hstart : 1 ≤ jsOrNat params.page 1 := by
    unfold jsOrNat
    cases params.page with
    | none => exact Nat.le_refl 1
    | some n =>
      dsimp only
      by_cases hn : n = 0
      · rw [if_pos hn]
      · rw [if_neg hn]
        omega
  obtain ⟨hb, hcat, hfull⟩ := fetchPages_spec feed (jsOrNat params.per_page 100)
    (jsOrNat params.maxPages 3 + 1 - jsOrNat params.page 1)
    (jsOrNat params.page 1) (jsOrNat params.maxPages 3) (Nat.le_refl _)
  refine ⟨?_, hcat, hfull⟩
  unfold getNotificationsPaged
  omega
